import Mathlib

/-!
# Verification of the five-bells-condition fulfillment codec

A shallow embedding of `src/lib/fulfillment.js` (the abstract `Fulfillment`
base class) together with the collaborator components it uses
(Writer, Reader, Predictor, Condition, BitmaskRegistry, base64url), which
are modelled from the specification since their sources are not in the
repository snapshot.

Bytes are modelled as `Nat` (with `< 256` side conditions where a claim
needs them); JS strings are modelled as `List Char`.
-/

namespace FiveBells

/-! ## Variable-length unsigned integer codec

Modelled from the spec: the Writer/Reader files are not in the snapshot.
§4.1 describes the scheme as "a minimal-length big-endian byte sequence
prefixed by its own length (... a single length byte followed by that many
magnitude bytes)", with non-canonical encodings rejected on read. -/

/-- Minimal big-endian byte string of `n` (empty for `0`); structural
recursion on a fuel argument so that it evaluates by reduction. -/
def natToBEAux : Nat → Nat → List Nat
  | 0, _ => []
  | fuel + 1, n => if n = 0 then [] else natToBEAux fuel (n / 256) ++ [n % 256]

/-- Minimal big-endian byte string of `n` (empty for `0`). -/
def natToBE (n : Nat) : List Nat :=
  natToBEAux n n

/-- Big-endian value of a byte string. -/
def beToNat (bs : List Nat) : Nat :=
  bs.foldl (fun acc b => acc * 256 + b) 0

/-- Modelled from the spec: `Writer.writeVarUInt` — one length byte followed
by the minimal big-endian magnitude bytes (`[1, 0]` for zero). -/
def varUIntBytes (n : Nat) : List Nat :=
  let m := if n = 0 then [0] else natToBE n
  m.length :: m

/-- Modelled from the spec: `Reader.readVarUInt` — reads the length byte and
that many magnitude bytes, rejecting truncated input and non-canonical
(non-minimal) encodings; returns the value and the remaining bytes. -/
def readVarUInt (bs : List Nat) : Option (Nat × List Nat) :=
  match bs with
  | [] => none
  | l :: rest =>
    if l = 0 then none
    else if rest.length < l then none
    else
      let mag := rest.take l
      if 1 < l ∧ mag.headI = 0 then none
      else some (beToNat mag, rest.drop l)

/-! ## The shared write interface and its two implementations

Modelled from the spec (§4.2): a single write interface with a
byte-accumulating implementation (Writer) and a counting-only one
(Predictor).  A concrete variant's `writePayload` only interacts with the
serialization machinery through this interface, so we represent an
instance's `writePayload` by the trace of write calls it makes. -/

inductive WriteOp where
  | writeUInt8 (v : Nat)
  | writeUInt16 (v : Nat)
  | writeUInt32 (v : Nat)
  | writeVarUInt (v : Nat)
  | writeOctetString (b : List Nat)
  | writeVarOctetString (b : List Nat)
deriving DecidableEq, Repr

/-- Modelled from the spec: the bytes `Writer` appends for one write call.
`writeOctetString` is length-prefixed by a single length byte;
`writeVarOctetString` is prefixed by a varuint length. -/
def writeOpBytes : WriteOp → List Nat
  | .writeUInt8 v => [v % 256]
  | .writeUInt16 v => [v / 256 % 256, v % 256]
  | .writeUInt32 v => [v / 16777216 % 256, v / 65536 % 256, v / 256 % 256, v % 256]
  | .writeVarUInt v => varUIntBytes v
  | .writeOctetString b => b.length :: b
  | .writeVarOctetString b => varUIntBytes b.length ++ b

/-- Modelled from the spec: the byte count `Predictor` adds for one write
call — the number of bytes the operation would write. -/
def predictOpSize : WriteOp → Nat
  | .writeUInt8 _ => 1
  | .writeUInt16 _ => 2
  | .writeUInt32 _ => 4
  | .writeVarUInt v => (varUIntBytes v).length
  | .writeOctetString b => b.length + 1
  | .writeVarOctetString b => (varUIntBytes b.length).length + b.length

/-- Method of `Writer`: run a trace of write calls on a fresh writer and take the
finished buffer (`getBuffer()`). -/
def writerRun (ops : List WriteOp) : List Nat :=
  (ops.map writeOpBytes).flatten

/-- Method of `Predictor`: run a trace of write calls on a fresh predictor and take
the accumulated count (`getSize()`). -/
def predictorRun (ops : List WriteOp) : Nat :=
  (ops.map predictOpSize).sum

/-! ## Condition and Fulfillment data model

`Condition` is modelled from the spec (its source file is not in the
snapshot): the committed value triple bitmask / hash / maxFulfillmentLength.

A `Fulfillment` instance of a concrete variant is represented by the data
the abstract base class in `src/lib/fulfillment.js` observes of it:
the variant's `TYPE_BIT`, the trace of write calls its `writePayload`
makes on the shared write interface, and the digest its `generateHash`
returns. -/

structure Condition where
  bitmask : Nat
  hash : List Nat
  maxFulfillmentLength : Nat
deriving DecidableEq, Repr

structure Fulfillment where
  typeBit : Nat
  payloadOps : List WriteOp
  hashValue : List Nat
deriving DecidableEq, Repr

namespace Fulfillment

/-- Method `getTypeBit()`: returns `this.constructor.TYPE_BIT`. -/
def getTypeBit (f : Fulfillment) : Nat := f.typeBit

/-- Method `getBitmask()`: the base-class implementation returns
`this.constructor.TYPE_BIT`. -/
def getBitmask (f : Fulfillment) : Nat := f.typeBit

/-- Method `generateHash()`: abstract in the base class; the concrete variant's
result is the instance's `hashValue`. -/
def generateHash (f : Fulfillment) : List Nat := f.hashValue

/-- Method `calculateMaxFulfillmentLength()`: runs `this.writePayload` against a
fresh `Predictor` and returns `predictor.getSize()`. -/
def calculateMaxFulfillmentLength (f : Fulfillment) : Nat :=
  predictorRun f.payloadOps

/-- Method `getCondition()`: builds a new `Condition` from `getBitmask()`,
`generateHash()` and `calculateMaxFulfillmentLength()`. -/
def getCondition (f : Fulfillment) : Condition :=
  { bitmask := f.getBitmask
    hash := f.generateHash
    maxFulfillmentLength := f.calculateMaxFulfillmentLength }

/-- Method `serializePayload()`: runs `this.writePayload` against a fresh `Writer`
and returns the buffer; no type-bit prefix. -/
def serializePayload (f : Fulfillment) : List Nat :=
  writerRun f.payloadOps

/-- Method `serializeBinary()`: a fresh `Writer` receives
`writer.writeVarUInt(this.getTypeBit())` followed by
`this.writePayload(writer)`; returns the buffer. -/
def serializeBinary (f : Fulfillment) : List Nat :=
  writerRun (WriteOp.writeVarUInt f.getTypeBit :: f.payloadOps)

end Fulfillment

/-! ## Hex rendering and parsing

`getTypeBit().toString(16)` and `parseInt(pieces[2], 16)` from the
JavaScript runtime: minimal lowercase hex. -/

/-- Lowercase hex digit for `d < 16`. -/
def hexDigitChar (d : Nat) : Char :=
  if d < 10 then Char.ofNat (48 + d) else Char.ofNat (87 + d)

/-- Digits of `n` in base 16, most significant first; empty for `0`;
structural recursion on a fuel argument so that it evaluates by
reduction. -/
def natToHexAux : Nat → Nat → List Char
  | 0, _ => []
  | fuel + 1, n => if n = 0 then [] else natToHexAux fuel (n / 16) ++ [hexDigitChar (n % 16)]

/-- JavaScript `n.toString(16)`: minimal lowercase hex rendering, `"0"` for zero. -/
def natToHexChars (n : Nat) : List Char :=
  if n = 0 then ['0'] else natToHexAux n n

/-- Numeric value of one hex digit (either case), `0` on other input. -/
def hexVal (c : Char) : Nat :=
  if '0' ≤ c ∧ c ≤ '9' then c.toNat - 48
  else if 'a' ≤ c ∧ c ≤ 'f' then c.toNat - 87
  else if 'A' ≤ c ∧ c ≤ 'F' then c.toNat - 55
  else 0

/-- JavaScript `parseInt(s, 16)` on a string of hex digits. -/
def parseHexChars (cs : List Char) : Nat :=
  cs.foldl (fun acc c => acc * 16 + hexVal c) 0

/-! ## base64url codec

Modelled from the spec: the `util/base64url` file is not in the snapshot;
§1/§6 describe it as a pure injective byte/text codec using the URL-safe
alphabet with no padding. -/

/-- Character for a 6-bit group: `A-Z`, `a-z`, `0-9`, `-`, `_`. -/
def b64Char (n : Nat) : Char :=
  if n < 26 then Char.ofNat (65 + n)
  else if n < 52 then Char.ofNat (97 + (n - 26))
  else if n < 62 then Char.ofNat (48 + (n - 52))
  else if n = 62 then '-' else '_'

/-- Value of the 6-bit group of a base64url character, `0` on other input. -/
def b64Val (c : Char) : Nat :=
  if 'A' ≤ c ∧ c ≤ 'Z' then c.toNat - 65
  else if 'a' ≤ c ∧ c ≤ 'z' then c.toNat - 97 + 26
  else if '0' ≤ c ∧ c ≤ '9' then c.toNat - 48 + 52
  else if c = '-' then 62
  else if c = '_' then 63
  else 0

/-- Modelled from the spec: `base64url.encode` — URL-safe base64, no
padding characters. -/
def base64urlEncode : List Nat → List Char
  | [] => []
  | [b1] => [b64Char (b1 / 4), b64Char (b1 % 4 * 16)]
  | [b1, b2] => [b64Char (b1 / 4), b64Char (b1 % 4 * 16 + b2 / 16), b64Char (b2 % 16 * 4)]
  | b1 :: b2 :: b3 :: rest =>
      b64Char (b1 / 4) :: b64Char (b1 % 4 * 16 + b2 / 16) ::
        b64Char (b2 % 16 * 4 + b3 / 64) :: b64Char (b3 % 64) :: base64urlEncode rest

/-- Modelled from the spec: `base64url.decode` — inverse of
`base64urlEncode`; lenient on a dangling trailing character, like the
JavaScript base64 decoder it stands for. -/
def base64urlDecode : List Char → List Nat
  | [] => []
  | [_] => []
  | [c1, c2] => [b64Val c1 * 4 + b64Val c2 / 16]
  | [c1, c2, c3] => [b64Val c1 * 4 + b64Val c2 / 16, b64Val c2 % 16 * 16 + b64Val c3 / 4]
  | c1 :: c2 :: c3 :: c4 :: rest =>
      (b64Val c1 * 4 + b64Val c2 / 16) :: (b64Val c2 % 16 * 16 + b64Val c3 / 4) ::
        (b64Val c3 % 4 * 64 + b64Val c4) :: base64urlDecode rest

/-! ## The fulfillment URI grammar

`FULFILLMENT_REGEX = /^cf:1:[1-9a-f][0-9a-f]{0,2}:[a-zA-Z0-9_-]+$/`
(src/lib/fulfillment.js line 12).  Since the hex-digit class and `:` are
disjoint, the regex is matched deterministically without backtracking. -/

/-- Character class `[0-9a-f]`. -/
def isLowerHexDigit (c : Char) : Bool :=
  ('0' ≤ c && c ≤ '9') || ('a' ≤ c && c ≤ 'f')

/-- Character class `[a-zA-Z0-9_-]`. -/
def isB64UrlChar (c : Char) : Bool :=
  ('A' ≤ c && c ≤ 'Z') || ('a' ≤ c && c ≤ 'z') || ('0' ≤ c && c ≤ '9') ||
    c == '_' || c == '-'

/-- Matches `[a-zA-Z0-9_-]+$`. -/
def matchPayloadSeg (cs : List Char) : Bool :=
  !cs.isEmpty && cs.all isB64UrlChar

/-- Matches `[0-9a-f]{0,k}:[a-zA-Z0-9_-]+$`. -/
def matchHexTail : Nat → List Char → Bool
  | _, [] => false
  | k, c :: rest =>
    if c = ':' then matchPayloadSeg rest
    else if k = 0 then false
    else isLowerHexDigit c && matchHexTail (k - 1) rest

/-- Test `FULFILLMENT_REGEX.exec(s) !== null`. -/
def fulfillmentRegexTest : List Char → Bool
  | 'c' :: 'f' :: ':' :: '1' :: ':' :: c :: rest =>
      isLowerHexDigit c && c != '0' && matchHexTail 2 rest
  | _ => false

/-- JavaScript `s.split(':')` from the JavaScript runtime. -/
def splitOnColon : List Char → List (List Char)
  | [] => [[]]
  | c :: rest =>
    if c = ':' then [] :: splitOnColon rest
    else
      match splitOnColon rest with
      | [] => [[c]]
      | p :: ps => (c :: p) :: ps

/-! ## Errors, registry and the parse entry points -/

instance {ε α : Type} [DecidableEq ε] [DecidableEq α] : DecidableEq (Except ε α) := fun a b =>
  match a, b with
  | .error e1, .error e2 => decidable_of_iff (e1 = e2) (by simp)
  | .error _, .ok _ => isFalse (fun hc => Except.noConfusion hc)
  | .ok _, .error _ => isFalse (fun hc => Except.noConfusion hc)
  | .ok a1, .ok a2 => decidable_of_iff (a1 = a2) (by simp)

/-- The error taxonomy surfaced by `fromUri`/`fromBinary`: `PrefixError`
and `ParseError`, each carrying its message. -/
inductive FulErr where
  | prefixError (msg : String)
  | parseError (msg : String)
deriving DecidableEq, Repr

/-- A registered concrete variant, as the parse entry points see it: its
`TYPE_BIT` and its `parsePayload`, which populates a fresh instance from
the payload bytes (`none` models a parse failure thrown inside it). -/
structure Variant where
  typeBit : Nat
  parsePayload : List Nat → Option Fulfillment

/-- Modelled from the spec: `BitmaskRegistry.getClassFromTypeBit`, as the
process-wide table mapping a type bit to the registered variant; `none`
models the ParseError thrown for an unregistered bit. -/
def Registry := Nat → Option Variant

namespace Fulfillment

/-- Method `serializeUri()`:
`'cf:1:' + this.getTypeBit().toString(16) + ':' + base64url.encode(this.serializePayload())`. -/
def serializeUri (f : Fulfillment) : List Char :=
  "cf:1:".data ++ natToHexChars f.getTypeBit ++ ':' :: base64urlEncode f.serializePayload

/-- Entry point `Fulfillment.fromUri(serializedFulfillment)`; the `typeof` check on the
argument is made unnecessary by the `List Char` input type. -/
def fromUri (reg : Registry) (s : List Char) : Except FulErr Fulfillment :=
  let pieces := splitOnColon s
  if pieces.getD 0 [] ≠ "cf".data then
    .error (.prefixError ("Serialized fulfillment must start with \"cf:\""))
  else if pieces.getD 1 [] ≠ "1".data then
    .error (.prefixError ("Fulfillment must be version 1"))
  else if ¬ fulfillmentRegexTest s then
    .error (.parseError ("Invalid fulfillment format"))
  else
    let bitmask := parseHexChars (pieces.getD 2 [])
    let payload := base64urlDecode (pieces.getD 3 [])
    match reg bitmask with
    | none => .error (.parseError ("No class registered for type bit"))
    | some v =>
      match v.parsePayload payload with
      | none => .error (.parseError ("Payload parse failure"))
      | some f => .ok f

/-! ### State-threading embeddings of the serialization methods

For the frame property we embed the methods in JS style: the instance is
threaded through every call, and the abstract `writePayload` /
`generateHash` overrides are arbitrary state transformers, so that "the
method assigns no field of the fulfillment" is a statement and not a
modelling assumption.  The writer state is its buffer (`List Nat`), the
predictor state its byte count (`Nat`); each method allocates a fresh
one, exactly as the source does. -/

/-- Method `serializeBinary()` threading the instance: fresh writer, varuint
type-bit write, then the variant's `writePayload`. -/
def serializeBinaryS (wp : Fulfillment → List Nat → List Nat × Fulfillment)
    (f : Fulfillment) : List Nat × Fulfillment :=
  let w0 : List Nat := []
  let w1 := w0 ++ varUIntBytes f.getTypeBit
  let p := wp f w1
  (p.1, p.2)

/-- Method `serializePayload()` threading the instance: fresh writer, only the
variant's `writePayload`. -/
def serializePayloadS (wp : Fulfillment → List Nat → List Nat × Fulfillment)
    (f : Fulfillment) : List Nat × Fulfillment :=
  let p := wp f []
  (p.1, p.2)

/-- Method `serializeUri()` threading the instance. -/
def serializeUriS (wp : Fulfillment → List Nat → List Nat × Fulfillment)
    (f : Fulfillment) : List Char × Fulfillment :=
  let tb := f.getTypeBit
  let p := serializePayloadS wp f
  ("cf:1:".data ++ natToHexChars tb ++ ':' :: base64urlEncode p.1, p.2)

/-- Method `calculateMaxFulfillmentLength()` threading the instance: fresh
predictor, the variant's `writePayload` against it, `getSize()`. -/
def calculateMaxFulfillmentLengthS (wpP : Fulfillment → Nat → Nat × Fulfillment)
    (f : Fulfillment) : Nat × Fulfillment :=
  let p := wpP f 0
  (p.1, p.2)

/-- Method `getCondition()` threading the instance: a fresh `Condition` is
populated from `getBitmask()`, `generateHash()` and
`calculateMaxFulfillmentLength()`. -/
def getConditionS (gh : Fulfillment → List Nat × Fulfillment)
    (wpP : Fulfillment → Nat → Nat × Fulfillment)
    (f : Fulfillment) : Condition × Fulfillment :=
  let bm := f.getBitmask
  let ph := gh f
  let pm := calculateMaxFulfillmentLengthS wpP ph.2
  ({ bitmask := bm, hash := ph.1, maxFulfillmentLength := pm.1 }, pm.2)

/-- Entry point `Fulfillment.fromBinary(reader)`: read one varuint type bit, resolve
the variant through the registry, delegate to its `parsePayload`. -/
def fromBinary (reg : Registry) (bs : List Nat) : Except FulErr Fulfillment :=
  match readVarUInt bs with
  | none => .error (.parseError ("Invalid varint"))
  | some (tb, rest) =>
    match reg tb with
    | none => .error (.parseError ("No class registered for type bit"))
    | some v =>
      match v.parsePayload rest with
      | none => .error (.parseError ("Payload parse failure"))
      | some f => .ok f

end Fulfillment

/-! ## Sample concrete variant used to witness the contract theorems -/

/-- A concrete fulfillment instance: type bit 1, payload a single
`writeUInt8(42)` call, digest `[7]`. -/
def sampleFulfillment : Fulfillment :=
  { typeBit := 1, payloadOps := [WriteOp.writeUInt8 42], hashValue := [7] }

/-- The variant of `sampleFulfillment`: parses exactly its payload. -/
def sampleVariant : Variant :=
  { typeBit := 1
    parsePayload := fun bs => if bs = [42] then some sampleFulfillment else none }

/-- A registry with only `sampleVariant` registered, at type bit 1. -/
def sampleRegistry : Registry :=
  fun n => if n = 1 then some sampleVariant else none

/-! ## Writer and Predictor agree on byte counts -/

theorem predictOpSize_eq (op : WriteOp) : predictOpSize op = (writeOpBytes op).length := by
  cases op <;> simp [predictOpSize, writeOpBytes]

theorem writerRun_cons (op : WriteOp) (ops : List WriteOp) :
    writerRun (op :: ops) = writeOpBytes op ++ writerRun ops := rfl

theorem predictorRun_cons (op : WriteOp) (ops : List WriteOp) :
    predictorRun (op :: ops) = predictOpSize op + predictorRun ops := rfl

theorem predictorRun_eq (ops : List WriteOp) : predictorRun ops = (writerRun ops).length := by
  induction ops with
  | nil => rfl
  | cons op ops ih =>
    rw [writerRun_cons, predictorRun_cons, List.length_append, predictOpSize_eq, ih]

/-- Lemma: `serializeBinary` is the varuint type bit followed by the payload
bytes. -/
theorem serializeBinary_eq (f : Fulfillment) :
    f.serializeBinary = varUIntBytes f.getTypeBit ++ f.serializePayload := rfl

/-! ## Varuint round-trip -/

theorem natToBEAux_zero (fuel : Nat) : natToBEAux fuel 0 = [] := by
  cases fuel <;> simp [natToBEAux]

theorem natToBEAux_congr (f1 : Nat) :
    ∀ f2 n, n ≤ f1 → n ≤ f2 → natToBEAux f1 n = natToBEAux f2 n := by
  induction f1 with
  | zero =>
    intro f2 n h1 _
    have : n = 0 := by omega
    subst this
    rw [natToBEAux_zero, natToBEAux_zero]
  | succ f1 ih =>
    intro f2 n h1 h2
    rcases Nat.eq_zero_or_pos n with rfl | hn
    · rw [natToBEAux_zero, natToBEAux_zero]
    · obtain ⟨g2, rfl⟩ : ∃ g2, f2 = g2 + 1 := ⟨f2 - 1, by omega⟩
      simp only [natToBEAux, if_neg (by omega : ¬ n = 0)]
      rw [ih g2 (n / 256) (by omega) (by omega)]

theorem natToBE_unfold (n : Nat) :
    natToBE n = if n = 0 then [] else natToBE (n / 256) ++ [n % 256] := by
  rcases Nat.eq_zero_or_pos n with rfl | hn
  · rfl
  · obtain ⟨m, rfl⟩ : ∃ m, n = m + 1 := ⟨n - 1, by omega⟩
    rw [if_neg (by omega : ¬ m + 1 = 0)]
    show natToBEAux (m + 1) (m + 1) = _
    simp only [natToBEAux, if_neg (by omega : ¬ m + 1 = 0)]
    rw [natToBEAux_congr m ((m + 1) / 256) ((m + 1) / 256) (by omega) (by omega)]
    rfl

theorem beToNat_append (bs : List Nat) (b : Nat) :
    beToNat (bs ++ [b]) = beToNat bs * 256 + b := by
  simp [beToNat, List.foldl_append]

theorem beToNat_natToBE (n : Nat) : beToNat (natToBE n) = n := by
  induction n using Nat.strong_induction_on with
  | _ n ih =>
    rw [natToBE_unfold]
    rcases Nat.eq_zero_or_pos n with rfl | hn
    · simp [beToNat]
    · rw [if_neg (by omega), beToNat_append, ih (n / 256) (by omega)]
      omega

theorem natToBE_head (n : Nat) : 0 < n → ∃ d ds, natToBE n = d :: ds ∧ d ≠ 0 := by
  induction n using Nat.strong_induction_on with
  | _ n ih =>
    intro hn
    rw [natToBE_unfold, if_neg (by omega)]
    rcases Nat.lt_or_ge n 256 with h | h
    · have h0 : n / 256 = 0 := by omega
      rw [h0]
      exact ⟨n % 256, [], by simp [natToBE, natToBEAux], by omega⟩
    · obtain ⟨d, ds, hds, hd⟩ := ih (n / 256) (by omega) (by omega)
      exact ⟨d, ds ++ [n % 256], by rw [hds]; simp, hd⟩

theorem readVarUInt_exact (m rest : List Nat) (hm : m ≠ [])
    (hcanon : 1 < m.length → m.headI ≠ 0) :
    readVarUInt (m.length :: (m ++ rest)) = some (beToNat m, rest) := by
  simp only [readVarUInt]
  rw [if_neg (by simp [hm]), if_neg (by simp), List.take_left, List.drop_left,
    if_neg (by rintro ⟨h1, h2⟩; exact hcanon h1 h2)]

theorem readVarUInt_varUIntBytes (n : Nat) (rest : List Nat) :
    readVarUInt (varUIntBytes n ++ rest) = some (n, rest) := by
  rcases Nat.eq_zero_or_pos n with rfl | hn
  · show readVarUInt (([0] : List Nat).length :: ([0] ++ rest)) = some (0, rest)
    rw [readVarUInt_exact [0] rest (by simp) (by simp)]
    rfl
  · obtain ⟨d, ds, hds, hd⟩ := natToBE_head n hn
    have hb : varUIntBytes n ++ rest = (natToBE n).length :: (natToBE n ++ rest) := by
      simp [varUIntBytes, if_neg (by omega : ¬ n = 0)]
    rw [hb, readVarUInt_exact (natToBE n) rest (by rw [hds]; simp)
      (by intro _; rw [hds]; simpa using hd), beToNat_natToBE]

/-! ## Claim theorems on the binary side -/

/-- Claim C1: for every registered fulfillment variant with a valid
payload — the variant honours its parse contract on the instance's
payload bytes — `fromBinary(serializeBinary(f))` succeeds and the result
serializes to a byte-identical `serializeBinary()`. -/
theorem binary_roundtrip (reg : Registry) (v : Variant) (f g : Fulfillment)
    (hreg : reg f.getTypeBit = some v)
    (hparse : v.parsePayload f.serializePayload = some g)
    (htb : g.typeBit = f.typeBit)
    (hpay : g.serializePayload = f.serializePayload) :
    Fulfillment.fromBinary reg f.serializeBinary = .ok g ∧
      g.serializeBinary = f.serializeBinary := by
  constructor
  · rw [serializeBinary_eq]
    simp only [Fulfillment.fromBinary, readVarUInt_varUIntBytes, hreg, hparse]
  · rw [serializeBinary_eq, serializeBinary_eq, hpay,
      show f.getTypeBit = g.getTypeBit from htb.symm]

/-- Witness for C1 at the sample variant: every hypothesis holds by
computation and the round-trip equations follow. -/
theorem binary_roundtrip_check :
    sampleRegistry sampleFulfillment.getTypeBit = some sampleVariant ∧
    sampleVariant.parsePayload sampleFulfillment.serializePayload = some sampleFulfillment ∧
    (Fulfillment.fromBinary sampleRegistry sampleFulfillment.serializeBinary =
        .ok sampleFulfillment ∧
      sampleFulfillment.serializeBinary = sampleFulfillment.serializeBinary) :=
  ⟨rfl, rfl, binary_roundtrip sampleRegistry sampleVariant sampleFulfillment sampleFulfillment
    rfl rfl rfl rfl⟩

/-- Claim C3: for any fulfillment instance with the default
`calculateMaxFulfillmentLength` (a `Predictor` replay of `writePayload`),
the serialized payload never exceeds the derived condition's
`maxFulfillmentLength`. -/
theorem max_length_sound (f : Fulfillment) :
    f.serializePayload.length ≤ f.getCondition.maxFulfillmentLength :=
  Nat.le_of_eq (predictorRun_eq f.payloadOps).symm

/-- Claim C4: `getCondition()` builds the condition from `getBitmask()`,
`generateHash()` and `calculateMaxFulfillmentLength()`; and calling it
twice on the same unmutated fulfillment — in the state-threading
embedding, the second call running on the instance the first call
returned — yields the identical condition, provided the variant's
`generateHash`/`writePayload` overrides are read-only, as the claim
assumes and concrete variants guarantee. -/
theorem getCondition_fields_deterministic (gh : Fulfillment → List Nat × Fulfillment)
    (wpP : Fulfillment → Nat → Nat × Fulfillment) (f : Fulfillment)
    (hgh : ∀ g, (gh g).2 = g) (hwpP : ∀ g n, (wpP g n).2 = g) :
    (f.getCondition.bitmask = f.getBitmask ∧ f.getCondition.hash = f.generateHash ∧
      f.getCondition.maxFulfillmentLength = f.calculateMaxFulfillmentLength) ∧
    (Fulfillment.getConditionS gh wpP ((Fulfillment.getConditionS gh wpP f).2)).1 = (Fulfillment.getConditionS gh wpP f).1 := by
  refine ⟨⟨rfl, rfl, rfl⟩, ?_⟩
  simp [Fulfillment.getConditionS, Fulfillment.calculateMaxFulfillmentLengthS, hgh, hwpP]

/-- Witness for C4: read-only `generateHash`/`writePayload` stand-ins on
the sample fulfillment. -/
theorem getCondition_fields_deterministic_check :
    (sampleFulfillment.getCondition.bitmask = sampleFulfillment.getBitmask ∧
      sampleFulfillment.getCondition.hash = sampleFulfillment.generateHash ∧
      sampleFulfillment.getCondition.maxFulfillmentLength =
        sampleFulfillment.calculateMaxFulfillmentLength) ∧
    (Fulfillment.getConditionS (fun g => ([7], g)) (fun g _ => (1, g))
        ((Fulfillment.getConditionS (fun g => ([7], g)) (fun g _ => (1, g)) sampleFulfillment).2)).1 =
      (Fulfillment.getConditionS (fun g => ([7], g)) (fun g _ => (1, g)) sampleFulfillment).1 :=
  getCondition_fields_deterministic (fun g => ([7], g)) (fun g _ => (1, g))
    sampleFulfillment (fun _ => rfl) (fun _ _ => rfl)

/-- Claim C8: `serializeBinary()` is exactly the varuint encoding of
`getTypeBit()` followed by the payload bytes, and `serializePayload()` is
that payload with no type-bit prefix. -/
theorem serializeBinary_structure (f : Fulfillment) :
    f.serializeBinary = varUIntBytes f.getTypeBit ++ f.serializePayload :=
  serializeBinary_eq f

/-- Claim C10: in the state-threading embedding, `serializeBinary`,
`serializePayload`, `serializeUri`, `calculateMaxFulfillmentLength` and
`getCondition` write only to their fresh local writer, predictor or
condition and assign no field of the fulfillment: assuming the variant's
`writePayload` and `generateHash` are read-only on the instance, each
method returns the instance unchanged. -/
theorem serialization_frame (wp : Fulfillment → List Nat → List Nat × Fulfillment)
    (wpP : Fulfillment → Nat → Nat × Fulfillment)
    (gh : Fulfillment → List Nat × Fulfillment) (f : Fulfillment)
    (hwp : ∀ g w, (wp g w).2 = g) (hwpP : ∀ g n, (wpP g n).2 = g)
    (hgh : ∀ g, (gh g).2 = g) :
    (Fulfillment.serializeBinaryS wp f).2 = f ∧
    (Fulfillment.serializePayloadS wp f).2 = f ∧
    (Fulfillment.serializeUriS wp f).2 = f ∧
    (Fulfillment.calculateMaxFulfillmentLengthS wpP f).2 = f ∧
    (Fulfillment.getConditionS gh wpP f).2 = f := by
  refine ⟨?_, ?_, ?_, ?_, ?_⟩ <;>
    simp [Fulfillment.serializeBinaryS, Fulfillment.serializePayloadS,
      Fulfillment.serializeUriS, Fulfillment.calculateMaxFulfillmentLengthS,
      Fulfillment.getConditionS, hwp, hwpP, hgh]

/-- Witness for C10: read-only stand-ins for the abstract overrides on
the sample fulfillment. -/
theorem serialization_frame_check :
    (Fulfillment.serializeBinaryS (fun g w => (w ++ [42], g)) sampleFulfillment).2 =
      sampleFulfillment ∧
    (Fulfillment.serializePayloadS (fun g w => (w ++ [42], g)) sampleFulfillment).2 =
      sampleFulfillment ∧
    (Fulfillment.serializeUriS (fun g w => (w ++ [42], g)) sampleFulfillment).2 =
      sampleFulfillment ∧
    (Fulfillment.calculateMaxFulfillmentLengthS (fun g n => (n + 1, g)) sampleFulfillment).2 =
      sampleFulfillment ∧
    (Fulfillment.getConditionS (fun g => ([7], g)) (fun g n => (n + 1, g))
      sampleFulfillment).2 = sampleFulfillment :=
  serialization_frame (fun g w => (w ++ [42], g)) (fun g n => (n + 1, g))
    (fun g => ([7], g)) sampleFulfillment (fun _ _ => rfl) (fun _ _ => rfl) (fun _ => rfl)

/-! ## URI rejection claims -/

/-- Claim C5: `fromUri` rejects a wrong scheme and a wrong version with
`PrefixError`, through two distinct checks carrying distinct messages:
`fromUri("xx:1:1:AA")` fails the scheme check and `fromUri("cf:2:1:AA")`
fails the version check. -/
theorem prefix_rejection (reg : Registry) :
    Fulfillment.fromUri reg "xx:1:1:AA".data =
      .error (.prefixError ("Serialized fulfillment must start with \"cf:\"")) ∧
    Fulfillment.fromUri reg "cf:2:1:AA".data =
      .error (.prefixError ("Fulfillment must be version 1")) ∧
    ("Serialized fulfillment must start with \"cf:\"" : String) ≠
      "Fulfillment must be version 1" :=
  ⟨rfl, rfl, by decide⟩

/-- Witness for C5 at the sample registry. -/
theorem prefix_rejection_check :
    Fulfillment.fromUri sampleRegistry "xx:1:1:AA".data =
      .error (.prefixError ("Serialized fulfillment must start with \"cf:\"")) ∧
    Fulfillment.fromUri sampleRegistry "cf:2:1:AA".data =
      .error (.prefixError ("Fulfillment must be version 1")) ∧
    ("Serialized fulfillment must start with \"cf:\"" : String) ≠
      "Fulfillment must be version 1" :=
  prefix_rejection sampleRegistry

/-- Claim C6: any string that passes the scheme and version checks but
fails `FULFILLMENT_REGEX` makes `fromUri` raise `ParseError`; in
particular `fromUri("cf:1:0:AA")` does (see the witness). -/
theorem grammar_rejection (reg : Registry) (s : List Char)
    (h0 : (splitOnColon s).getD 0 [] = "cf".data)
    (h1 : (splitOnColon s).getD 1 [] = "1".data)
    (hre : fulfillmentRegexTest s = false) :
    Fulfillment.fromUri reg s = .error (.parseError ("Invalid fulfillment format")) := by
  rw [List.getD_eq_getElem?_getD] at h0 h1
  simp [Fulfillment.fromUri, h0, h1, hre]

/-- Witness for C6 at `"cf:1:0:AA"`: the type-bit segment `0` violates the
grammar. -/
theorem grammar_rejection_check :
    (splitOnColon "cf:1:0:AA".data).getD 0 [] = "cf".data ∧
    (splitOnColon "cf:1:0:AA".data).getD 1 [] = "1".data ∧
    fulfillmentRegexTest "cf:1:0:AA".data = false ∧
    Fulfillment.fromUri sampleRegistry "cf:1:0:AA".data =
      .error (.parseError ("Invalid fulfillment format")) :=
  ⟨by decide, by decide, by decide,
    grammar_rejection sampleRegistry "cf:1:0:AA".data (by decide) (by decide) (by decide)⟩

/-! ## Hex rendering lemmas -/

theorem hexVal_hexDigitChar : ∀ d < 16, hexVal (hexDigitChar d) = d := by decide

theorem hexDigitChar_hex : ∀ d < 16, isLowerHexDigit (hexDigitChar d) = true := by decide

theorem hexDigitChar_ne_zero : ∀ d < 16, 0 < d → hexDigitChar d ≠ '0' := by decide

theorem natToHexAux_zero (fuel : Nat) : natToHexAux fuel 0 = [] := by
  cases fuel <;> simp [natToHexAux]

theorem natToHexAux_congr (f1 : Nat) :
    ∀ f2 n, n ≤ f1 → n ≤ f2 → natToHexAux f1 n = natToHexAux f2 n := by
  induction f1 with
  | zero =>
    intro f2 n h1 _
    have : n = 0 := by omega
    subst this
    rw [natToHexAux_zero, natToHexAux_zero]
  | succ f1 ih =>
    intro f2 n h1 h2
    rcases Nat.eq_zero_or_pos n with rfl | hn
    · rw [natToHexAux_zero, natToHexAux_zero]
    · obtain ⟨g2, rfl⟩ : ∃ g2, f2 = g2 + 1 := ⟨f2 - 1, by omega⟩
      simp only [natToHexAux, if_neg (by omega : ¬ n = 0)]
      rw [ih g2 (n / 16) (by omega) (by omega)]

theorem natToHexAux_unfold (n : Nat) (hn : 0 < n) :
    natToHexAux n n = natToHexAux (n / 16) (n / 16) ++ [hexDigitChar (n % 16)] := by
  obtain ⟨m, rfl⟩ : ∃ m, n = m + 1 := ⟨n - 1, by omega⟩
  simp only [natToHexAux, if_neg (by omega : ¬ m + 1 = 0)]
  rw [natToHexAux_congr m ((m + 1) / 16) ((m + 1) / 16) (by omega) (by omega)]

theorem parseHexChars_append (cs : List Char) (c : Char) :
    parseHexChars (cs ++ [c]) = parseHexChars cs * 16 + hexVal c := by
  simp [parseHexChars, List.foldl_append]

theorem parseHex_natToHexAux (n : Nat) : parseHexChars (natToHexAux n n) = n := by
  induction n using Nat.strong_induction_on with
  | _ n ih =>
    rcases Nat.eq_zero_or_pos n with rfl | hn
    · rfl
    · rw [natToHexAux_unfold n hn, parseHexChars_append, ih (n / 16) (by omega),
        hexVal_hexDigitChar (n % 16) (by omega)]
      omega

theorem parseHex_natToHex (n : Nat) : parseHexChars (natToHexChars n) = n := by
  rcases Nat.eq_zero_or_pos n with rfl | hn
  · rfl
  · rw [natToHexChars, if_neg (by omega), parseHex_natToHexAux]

theorem natToHexAux_all_hex (fuel : Nat) :
    ∀ n, (natToHexAux fuel n).all isLowerHexDigit = true := by
  induction fuel with
  | zero => intro n; rfl
  | succ fuel ih =>
    intro n
    rcases Nat.eq_zero_or_pos n with rfl | hn
    · simp [natToHexAux]
    · simp only [natToHexAux, if_neg (by omega : ¬ n = 0), List.all_append]
      simp [ih (n / 16), hexDigitChar_hex (n % 16) (by omega)]

theorem natToHex_all_hex (n : Nat) : (natToHexChars n).all isLowerHexDigit = true := by
  rcases Nat.eq_zero_or_pos n with rfl | hn
  · decide
  · rw [natToHexChars, if_neg (by omega)]
    exact natToHexAux_all_hex n n

theorem natToHexAux_length (fuel : Nat) :
    ∀ n k, n < 16 ^ k → (natToHexAux fuel n).length ≤ k := by
  induction fuel with
  | zero => intro n k _; simp [natToHexAux]
  | succ fuel ih =>
    intro n k hk
    rcases Nat.eq_zero_or_pos n with rfl | hn
    · simp [natToHexAux]
    · obtain ⟨j, rfl⟩ : ∃ j, k = j + 1 := by
        refine ⟨k - 1, ?_⟩
        rcases Nat.eq_zero_or_pos k with rfl | _
        · simp at hk; omega
        · omega
      simp only [natToHexAux, if_neg (by omega : ¬ n = 0), List.length_append,
        List.length_singleton]
      have : n / 16 < 16 ^ j := by
        rw [Nat.div_lt_iff_lt_mul (by norm_num)]
        calc n < 16 ^ (j + 1) := hk
        _ = 16 ^ j * 16 := by rw [pow_succ]
      have := ih (n / 16) j this
      omega

theorem natToHex_head (n : Nat) :
    0 < n → ∃ d ds, natToHexChars n = d :: ds ∧ isLowerHexDigit d = true ∧ d ≠ '0' := by
  induction n using Nat.strong_induction_on with
  | _ n ih =>
    intro hn
    rw [natToHexChars, if_neg (by omega), natToHexAux_unfold n hn]
    rcases Nat.lt_or_ge n 16 with h | h
    · have h0 : n / 16 = 0 := by omega
      rw [h0, natToHexAux_zero]
      exact ⟨hexDigitChar (n % 16), [], by simp,
        hexDigitChar_hex (n % 16) (by omega),
        hexDigitChar_ne_zero (n % 16) (by omega) (by omega)⟩
    · obtain ⟨d, ds, hds, hhex, hd⟩ := ih (n / 16) (by omega) (by omega)
      rw [natToHexChars, if_neg (by omega : ¬ n / 16 = 0)] at hds
      exact ⟨d, ds ++ [hexDigitChar (n % 16)], by rw [hds]; simp, hhex, hd⟩

/-! ## base64url lemmas -/

theorem b64Val_b64Char : ∀ n < 64, b64Val (b64Char n) = n := by decide

theorem b64Char_mem : ∀ n < 64, isB64UrlChar (b64Char n) = true := by decide

theorem base64url_decode_encode :
    ∀ bs : List Nat, (∀ b ∈ bs, b < 256) → base64urlDecode (base64urlEncode bs) = bs := by
  intro bs
  induction bs using base64urlEncode.induct with
  | case1 => intro _; rfl
  | case2 b1 =>
    intro h
    have hb1 : b1 < 256 := h b1 (by simp)
    simp only [base64urlEncode, base64urlDecode]
    rw [b64Val_b64Char _ (by omega), b64Val_b64Char _ (by omega)]
    simp only [List.cons.injEq, and_true]
    omega
  | case3 b1 b2 =>
    intro h
    have hb1 : b1 < 256 := h b1 (by simp)
    have hb2 : b2 < 256 := h b2 (by simp)
    simp only [base64urlEncode, base64urlDecode]
    rw [b64Val_b64Char _ (by omega), b64Val_b64Char _ (by omega),
      b64Val_b64Char _ (by omega)]
    simp only [List.cons.injEq, and_true]
    constructor <;> omega
  | case4 b1 b2 b3 rest ih =>
    intro h
    have hb1 : b1 < 256 := h b1 (by simp)
    have hb2 : b2 < 256 := h b2 (by simp)
    have hb3 : b3 < 256 := h b3 (by simp)
    have hrest := ih (fun b hb => h b (by simp [hb]))
    simp only [base64urlEncode, base64urlDecode, hrest]
    rw [b64Val_b64Char _ (by omega), b64Val_b64Char _ (by omega),
      b64Val_b64Char _ (by omega), b64Val_b64Char _ (by omega)]
    simp only [List.cons.injEq, and_true]
    refine ⟨by omega, by omega, by omega⟩

theorem base64urlEncode_all (bs : List Nat) (h : ∀ b ∈ bs, b < 256) :
    (base64urlEncode bs).all isB64UrlChar = true := by
  induction bs using base64urlEncode.induct with
  | case1 => rfl
  | case2 b1 =>
    have hb1 : b1 < 256 := h b1 (by simp)
    simp only [base64urlEncode, List.all_cons, List.all_nil, Bool.and_true]
    rw [b64Char_mem _ (by omega), b64Char_mem _ (by omega)]
    rfl
  | case3 b1 b2 =>
    have hb1 : b1 < 256 := h b1 (by simp)
    have hb2 : b2 < 256 := h b2 (by simp)
    simp only [base64urlEncode, List.all_cons, List.all_nil, Bool.and_true]
    rw [b64Char_mem _ (by omega), b64Char_mem _ (by omega), b64Char_mem _ (by omega)]
    rfl
  | case4 b1 b2 b3 rest ih =>
    have hb1 : b1 < 256 := h b1 (by simp)
    have hb2 : b2 < 256 := h b2 (by simp)
    have hb3 : b3 < 256 := h b3 (by simp)
    have hrest := ih (fun b hb => h b (by simp [hb]))
    simp only [base64urlEncode, List.all_cons, hrest, Bool.and_true]
    rw [b64Char_mem _ (by omega), b64Char_mem _ (by omega), b64Char_mem _ (by omega),
      b64Char_mem _ (by omega)]
    rfl

theorem base64urlEncode_ne_nil (bs : List Nat) (h : bs ≠ []) : base64urlEncode bs ≠ [] := by
  rcases bs with _ | ⟨b1, _ | ⟨b2, _ | ⟨b3, rest⟩⟩⟩ <;> simp_all [base64urlEncode]

theorem isB64UrlChar_ne_colon (c : Char) (h : isB64UrlChar c = true) : c ≠ ':' := by
  intro hc
  subst hc
  exact absurd h (by decide)

theorem isB64UrlChar_ne_pad (c : Char) (h : isB64UrlChar c = true) : c ≠ '=' := by
  intro hc
  subst hc
  exact absurd h (by decide)

theorem isLowerHexDigit_ne_colon (c : Char) (h : isLowerHexDigit c = true) : c ≠ ':' := by
  intro hc
  subst hc
  exact absurd h (by decide)

/-! ## splitOnColon lemmas -/

theorem splitOnColon_ne_nil : ∀ cs : List Char, splitOnColon cs ≠ [] := by
  intro cs
  match cs with
  | [] => simp [splitOnColon]
  | c :: rest =>
    simp only [splitOnColon]
    split
    · simp
    · split <;> simp

theorem splitOnColon_no_colon (a : List Char) (h : ∀ c ∈ a, c ≠ ':') :
    splitOnColon a = [a] := by
  induction a with
  | nil => rfl
  | cons c rest ih =>
    have hc : c ≠ ':' := h c (by simp)
    simp only [splitOnColon, if_neg hc]
    rw [ih (fun x hx => h x (by simp [hx]))]

theorem splitOnColon_append (a rest : List Char) (h : ∀ c ∈ a, c ≠ ':') :
    splitOnColon (a ++ ':' :: rest) = a :: splitOnColon rest := by
  induction a with
  | nil => simp [splitOnColon]
  | cons c t ih =>
    have hc : c ≠ ':' := h c (by simp)
    simp only [List.cons_append, splitOnColon, if_neg hc, List.append_eq]
    rw [ih (fun x hx => h x (by simp [hx]))]

/-! ## Regex grammar lemmas -/

theorem matchHexTail_append (hexT : List Char) :
    ∀ (k : Nat) (payload : List Char), hexT.all isLowerHexDigit = true → hexT.length ≤ k →
      matchHexTail k (hexT ++ ':' :: payload) = matchPayloadSeg payload := by
  induction hexT with
  | nil => intro k payload _ _; simp [matchHexTail]
  | cons c t ih =>
    intro k payload hall hlen
    simp only [List.all_cons, Bool.and_eq_true] at hall
    have hc : c ≠ ':' := isLowerHexDigit_ne_colon c hall.1
    simp only [List.cons_append, matchHexTail, if_neg hc,
      if_neg (by simp at hlen; omega : ¬ k = 0), hall.1, Bool.true_and]
    exact ih (k - 1) payload hall.2 (by simp at hlen ⊢; omega)

theorem regex_of_wellformed (hexH : Char) (hexT payload : List Char)
    (h1 : isLowerHexDigit hexH = true) (h2 : hexH ≠ '0')
    (h3 : hexT.all isLowerHexDigit = true) (h4 : hexT.length ≤ 2)
    (h5 : matchPayloadSeg payload = true) :
    fulfillmentRegexTest ('c' :: 'f' :: ':' :: '1' :: ':' :: hexH ::
      (hexT ++ ':' :: payload)) = true := by
  simp only [fulfillmentRegexTest, h1, Bool.true_and]
  rw [matchHexTail_append hexT 2 payload h3 h4, h5]
  simp [h2]

theorem matchHexTail_trailing (t : List Char) :
    ∀ k : Nat, (∀ c ∈ t, c ≠ ':') → matchHexTail k (t ++ [':']) = false := by
  induction t with
  | nil => intro k _; simp [matchHexTail, matchPayloadSeg]
  | cons c t' ih =>
    intro k h
    have hc : c ≠ ':' := h c (by simp)
    simp only [List.cons_append, matchHexTail, if_neg hc, List.append_eq]
    split
    · rfl
    · rw [ih (k - 1) (fun x hx => h x (by simp [hx]))]
      simp

theorem regexTest_trailing_colon (hex : List Char) (h : ∀ c ∈ hex, c ≠ ':') :
    fulfillmentRegexTest ("cf:1:".data ++ hex ++ [':']) = false := by
  rcases hex with _ | ⟨c, t⟩
  · decide
  · have hc : c ≠ ':' := h c (by simp)
    show fulfillmentRegexTest ('c' :: 'f' :: ':' :: '1' :: ':' :: c :: (t ++ [':'])) = false
    simp only [fulfillmentRegexTest]
    rw [matchHexTail_trailing t 2 (fun x hx => h x (by simp [hx]))]
    simp

/-- Shape of the split for a well-formed URI of a colon-free hex segment and a
colon-free payload segment: shape of the split. -/
theorem splitOnColon_uri (hex enc : List Char) (hh : ∀ c ∈ hex, c ≠ ':')
    (he : ∀ c ∈ enc, c ≠ ':') :
    splitOnColon ("cf:1:".data ++ hex ++ ':' :: enc) =
      ["cf".data, "1".data, hex, enc] := by
  show splitOnColon (['c', 'f'] ++ ':' :: (['1'] ++ ':' :: (hex ++ ':' :: enc))) = _
  rw [splitOnColon_append ['c', 'f'] _ (by decide), splitOnColon_append ['1'] _ (by decide),
    splitOnColon_append hex _ hh, splitOnColon_no_colon enc he]

/-- Rejection of a URI whose payload segment (after the third colon) is
empty: the regex demands at least one base64url character. -/
theorem fromUri_trailing_colon (reg : Registry) (hex : List Char)
    (hh : ∀ c ∈ hex, c ≠ ':') :
    Fulfillment.fromUri reg ("cf:1:".data ++ hex ++ [':']) =
      .error (.parseError ("Invalid fulfillment format")) := by
  have hsplit : splitOnColon ("cf:1:".data ++ hex ++ [':']) =
      ["cf".data, "1".data, hex, []] := by
    show splitOnColon (['c', 'f'] ++ ':' :: (['1'] ++ ':' :: (hex ++ ':' :: []))) = _
    rw [splitOnColon_append ['c', 'f'] _ (by decide), splitOnColon_append ['1'] _ (by decide),
      splitOnColon_append hex _ hh]
    rfl
  have hsplit2 : splitOnColon ('c' :: 'f' :: ':' :: '1' :: ':' :: (hex ++ [':'])) =
      ["cf".data, "1".data, hex, []] := hsplit
  have hre : fulfillmentRegexTest ('c' :: 'f' :: ':' :: '1' :: ':' :: (hex ++ [':'])) =
      false := regexTest_trailing_colon hex hh
  simp [Fulfillment.fromUri, hsplit2, hre]

/-- Claim C9: a fulfillment URI with an empty payload segment after the
third colon, such as `"cf:1:1:"`, is rejected with `ParseError`; in
consequence a fulfillment whose `serializePayload()` is zero bytes does
not round-trip through `fromUri(serializeUri(f))` but raises `ParseError`
instead. -/
theorem empty_payload_rejected :
    (∀ (reg : Registry) (hex : List Char), (∀ c ∈ hex, c ≠ ':') →
      Fulfillment.fromUri reg ("cf:1:".data ++ hex ++ [':']) =
        .error (.parseError ("Invalid fulfillment format"))) ∧
    (∀ (reg : Registry) (f : Fulfillment), f.serializePayload = [] →
      Fulfillment.fromUri reg f.serializeUri =
        .error (.parseError ("Invalid fulfillment format"))) := by
  refine ⟨fromUri_trailing_colon, ?_⟩
  intro reg f hpay
  have hser : f.serializeUri = "cf:1:".data ++ natToHexChars f.getTypeBit ++ [':'] := by
    unfold Fulfillment.serializeUri
    rw [hpay]
    rfl
  rw [hser]
  refine fromUri_trailing_colon reg _ (fun c hc => ?_)
  exact isLowerHexDigit_ne_colon c (List.all_eq_true.mp (natToHex_all_hex _) c hc)

/-- Witness for C9: the literal `"cf:1:1:"` and a zero-payload instance. -/
theorem empty_payload_rejected_check :
    Fulfillment.fromUri sampleRegistry "cf:1:1:".data =
      .error (.parseError ("Invalid fulfillment format")) ∧
    ((⟨1, [], []⟩ : Fulfillment).serializePayload = [] ∧
      Fulfillment.fromUri sampleRegistry (⟨1, [], []⟩ : Fulfillment).serializeUri =
        .error (.parseError ("Invalid fulfillment format"))) :=
  ⟨empty_payload_rejected.1 sampleRegistry ['1'] (by decide),
    rfl, empty_payload_rejected.2 sampleRegistry ⟨1, [], []⟩ rfl⟩

/-- Claim C7: `serializeUri()` is exactly `"cf:1:"`, the minimal lowercase
hex rendering of `getTypeBit()` (which parses back to the type bit and has
no leading zero), a colon, and the padding-free URL-safe base64 encoding
of `serializePayload()`. -/
theorem serializeUri_format (f : Fulfillment) (h1 : 1 ≤ f.typeBit)
    (hbytes : ∀ b ∈ f.serializePayload, b < 256) :
    f.serializeUri = "cf:1:".data ++ natToHexChars f.getTypeBit ++ ':' ::
        base64urlEncode f.serializePayload ∧
    parseHexChars (natToHexChars f.getTypeBit) = f.getTypeBit ∧
    (natToHexChars f.getTypeBit).all isLowerHexDigit = true ∧
    (natToHexChars f.getTypeBit).headI ≠ '0' ∧
    (base64urlEncode f.serializePayload).all isB64UrlChar = true ∧
    '=' ∉ base64urlEncode f.serializePayload ∧
    base64urlDecode (base64urlEncode f.serializePayload) = f.serializePayload := by
  refine ⟨rfl, parseHex_natToHex _, natToHex_all_hex _, ?_,
    base64urlEncode_all _ hbytes, ?_, base64url_decode_encode _ hbytes⟩
  · obtain ⟨d, ds, hds, _, hd⟩ := natToHex_head f.getTypeBit h1
    rw [hds]
    exact hd
  · intro hmem
    have := List.all_eq_true.mp (base64urlEncode_all _ hbytes) _ hmem
    exact isB64UrlChar_ne_pad '=' this rfl

/-- Witness for C7 at the sample fulfillment. -/
theorem serializeUri_format_check :
    1 ≤ sampleFulfillment.typeBit ∧ (∀ b ∈ sampleFulfillment.serializePayload, b < 256) ∧
    (sampleFulfillment.serializeUri = "cf:1:".data ++
        natToHexChars sampleFulfillment.getTypeBit ++ ':' ::
        base64urlEncode sampleFulfillment.serializePayload ∧
      parseHexChars (natToHexChars sampleFulfillment.getTypeBit) =
        sampleFulfillment.getTypeBit ∧
      (natToHexChars sampleFulfillment.getTypeBit).all isLowerHexDigit = true ∧
      (natToHexChars sampleFulfillment.getTypeBit).headI ≠ '0' ∧
      (base64urlEncode sampleFulfillment.serializePayload).all isB64UrlChar = true ∧
      '=' ∉ base64urlEncode sampleFulfillment.serializePayload ∧
      base64urlDecode (base64urlEncode sampleFulfillment.serializePayload) =
        sampleFulfillment.serializePayload) :=
  ⟨by decide, by decide,
    serializeUri_format sampleFulfillment (by decide) (by decide)⟩

/-- Success of `fromUri` on `serializeUri` output under the variant's
parse contract. -/
theorem fromUri_wellformed (reg : Registry) (v : Variant) (f g : Fulfillment)
    (h1 : 1 ≤ f.typeBit) (h2 : f.typeBit ≤ 4095)
    (hbytes : ∀ b ∈ f.serializePayload, b < 256)
    (hne : f.serializePayload ≠ [])
    (hreg : reg f.getTypeBit = some v)
    (hparse : v.parsePayload f.serializePayload = some g) :
    Fulfillment.fromUri reg f.serializeUri = .ok g := by
  obtain ⟨d, ds, hds, hdhex, hd⟩ := natToHex_head f.getTypeBit h1
  have hall : (natToHexChars f.getTypeBit).all isLowerHexDigit = true := natToHex_all_hex _
  have hnocolon : ∀ c ∈ natToHexChars f.getTypeBit, c ≠ ':' := fun c hc =>
    isLowerHexDigit_ne_colon c (List.all_eq_true.mp hall c hc)
  have hencall : (base64urlEncode f.serializePayload).all isB64UrlChar = true :=
    base64urlEncode_all _ hbytes
  have hencnocolon : ∀ c ∈ base64urlEncode f.serializePayload, c ≠ ':' := fun c hc =>
    isB64UrlChar_ne_colon c (List.all_eq_true.mp hencall c hc)
  have hencne : base64urlEncode f.serializePayload ≠ [] := base64urlEncode_ne_nil _ hne
  have hsplit : splitOnColon f.serializeUri =
      ["cf".data, "1".data, natToHexChars f.getTypeBit, base64urlEncode f.serializePayload] :=
    splitOnColon_uri _ _ hnocolon hencnocolon
  have hgt : f.getTypeBit = f.typeBit := rfl
  have hlen : (natToHexChars f.getTypeBit).length ≤ 3 := by
    rw [natToHexChars, if_neg (by rw [hgt]; omega)]
    exact natToHexAux_length _ _ 3 (by rw [hgt]; norm_num; omega)
  have hregex : fulfillmentRegexTest f.serializeUri = true := by
    have hser : f.serializeUri = 'c' :: 'f' :: ':' :: '1' :: ':' :: d ::
        (ds ++ ':' :: base64urlEncode f.serializePayload) := by
      unfold Fulfillment.serializeUri
      rw [hds]
      rfl
    rw [hser]
    refine regex_of_wellformed d ds _ hdhex hd ?_ ?_ ?_
    · have hall2 := hall
      rw [hds] at hall2
      simp only [List.all_cons, Bool.and_eq_true] at hall2
      exact hall2.2
    · have hlen2 := hlen
      rw [hds] at hlen2
      simp only [List.length_cons] at hlen2
      omega
    · simp [matchPayloadSeg, hencne, hencall]
  have hdec : base64urlDecode (base64urlEncode f.serializePayload) = f.serializePayload :=
    base64url_decode_encode _ hbytes
  have hparhex : parseHexChars (natToHexChars f.getTypeBit) = f.getTypeBit :=
    parseHex_natToHex _
  simp [Fulfillment.fromUri, hsplit, hregex, hparhex, hdec, hreg, hparse]

/-- Claim C2: for every registered fulfillment variant with a valid
nonempty payload of real bytes and a type bit within the grammar's
1–3 hex digit range, `fromUri(f.serializeUri())` succeeds and the result
has the same `serializeUri()`. -/
theorem uri_roundtrip (reg : Registry) (v : Variant) (f g : Fulfillment)
    (h1 : 1 ≤ f.typeBit) (h2 : f.typeBit ≤ 4095)
    (hbytes : ∀ b ∈ f.serializePayload, b < 256)
    (hne : f.serializePayload ≠ [])
    (hreg : reg f.getTypeBit = some v)
    (hparse : v.parsePayload f.serializePayload = some g)
    (htb : g.typeBit = f.typeBit)
    (hpay : g.serializePayload = f.serializePayload) :
    Fulfillment.fromUri reg f.serializeUri = .ok g ∧
      g.serializeUri = f.serializeUri := by
  refine ⟨fromUri_wellformed reg v f g h1 h2 hbytes hne hreg hparse, ?_⟩
  unfold Fulfillment.serializeUri
  rw [hpay, show g.getTypeBit = f.getTypeBit from htb]

/-- Witness for C2 at the sample variant. -/
theorem uri_roundtrip_check :
    1 ≤ sampleFulfillment.typeBit ∧ sampleFulfillment.typeBit ≤ 4095 ∧
    (∀ b ∈ sampleFulfillment.serializePayload, b < 256) ∧
    sampleFulfillment.serializePayload ≠ [] ∧
    sampleRegistry sampleFulfillment.getTypeBit = some sampleVariant ∧
    sampleVariant.parsePayload sampleFulfillment.serializePayload = some sampleFulfillment ∧
    (Fulfillment.fromUri sampleRegistry sampleFulfillment.serializeUri =
        .ok sampleFulfillment ∧
      sampleFulfillment.serializeUri = sampleFulfillment.serializeUri) :=
  ⟨by decide, by decide, by decide, by decide, rfl, rfl,
    uri_roundtrip sampleRegistry sampleVariant sampleFulfillment sampleFulfillment
      (by decide) (by decide) (by decide) (by decide) rfl rfl rfl rfl⟩

end FiveBells
